import Mathlib

/-!
Verification development for the watermark-removal pipeline in `src/main.py`.

The Python source is shallowly embedded: pure computations become Lean
functions over `Nat`/`Int`/`Rat`; the in-place mutation of the per-frame
mask buffer performed by `cv2.rectangle` is made explicit by returning the
buffer's new contents; external collaborators (the cv2 inpainting/blur
kernels, the thread-pool completion order, the decoder, the ffmpeg
subprocess) are parameters of the embedding, since the repository only
invokes them.  Python floats are idealized as rationals: the properties
checked here concern ordering, windowing and control flow, not rounding.
A Python exception escaping `process_video_with_inpainting` (only possible
as a `ZeroDivisionError` from `current_frame_num / fps` or
`progress = (current_frame_num + 1) / frame_count`) is modelled by
`Except.error`.
-/

namespace Watermark

/-- One entry of `WATERMARK_MASKS` in `src/main.py`: a rectangle
`(x, y, w, h)` active on the half-open time window from `start` to
`«end»` (seconds). -/
structure Region where
  rid : ℕ
  x : ℕ
  y : ℕ
  w : ℕ
  h : ℕ
  start : ℚ
  «end» : ℚ
deriving DecidableEq, Repr

/-- The literal `WATERMARK_MASKS` configuration list from `src/main.py`
(5 regions; the float endpoints 3.2, 6.2, 9.8 are taken as the exact
decimals they denote). -/
def WATERMARK_MASKS : List Region :=
  [⟨1, 330, 404, 150, 62, 0, 1⟩,
   ⟨2, 5, 670, 130, 75, 1/2, 4⟩,
   ⟨3, 10, 37, 120, 72, 16/5, 31/5⟩,
   ⟨4, 334, 398, 138, 67, 6, 9⟩,
   ⟨5, 0, 670, 130, 75, 7, 49/5⟩]

/-- A binary mask raster: `true` at a pixel means the mask value 255.
Pixels are addressed as `(column, row)`; the raster conceptually has the
frame's dimensions, coordinates outside them are never consulted. -/
def Mask : Type := ℕ × ℕ → Bool

/-- A frame's pixel data: `(column, row)` and a colour channel index to an
8-bit sample value (stored as `ℕ`, in range `0..255` for real frames). -/
def FrameData : Type := ℕ × ℕ → Fin 3 → ℕ

instance : Inhabited FrameData := ⟨fun _ _ => 0⟩

/-- The fresh all-zero mask `np.zeros(frame.shape[:2], dtype=np.uint8)`
allocated for each frame of a batch in `process_video_with_inpainting`. -/
def zeroMask : Mask := fun _ => false

/-- The guard `wm['start'] <= current_time < wm['end']` from
`process_frame_with_watermark` (half-open window). -/
def isActive (r : Region) (t : ℚ) : Bool :=
  decide (r.start ≤ t) && decide (t < r.«end»)

/-- Membership in the rectangle drawn by
`cv2.rectangle(mask, (x, y), (x + w, y + h), 255, -1)`: both corners are
inclusive, as cv2 draws them. -/
def inRect (r : Region) (p : ℕ × ℕ) : Bool :=
  decide (r.x ≤ p.1) && decide (p.1 ≤ r.x + r.w) &&
  decide (r.y ≤ p.2) && decide (p.2 ≤ r.y + r.h)

/-- One iteration of the mask-filling loop: if the region is active,
draw its rectangle into the mask buffer and set `is_watermark_present`. -/
def fillStep (t : ℚ) (acc : Mask × Bool) (r : Region) : Mask × Bool :=
  if isActive r t then (fun p => acc.1 p || inRect r p, true) else acc

/-- The mask-filling loop at the top of `process_frame_with_watermark`
(and likewise in `process_video_with_inpainting_old`): starting from the
caller's mask buffer and `is_watermark_present = False`, iterate over the
region list, drawing the rectangle of every active region into the buffer
and raising the flag.  The returned pair is (mask buffer contents after
the loop, `is_watermark_present`). -/
def fillMask (regions : List Region) (t : ℚ) (m0 : Mask) : Mask × Bool :=
  regions.foldl (fillStep t) (m0, false)

/-- The union of the rectangles of the regions active at `t` (spec §8:
what `resolve(t)` must equal). -/
def maskUnion (regions : List Region) (t : ℚ) (p : ℕ × ℕ) : Bool :=
  regions.any fun r => isActive r t && inRect r p

/-- Whether any configured region is active at `t`. -/
def anyActive (regions : List Region) (t : ℚ) : Bool :=
  regions.any fun r => isActive r t

/-- The cv2 image operations invoked by `process_frame_with_watermark`.
They are external collaborators of the repository and are therefore
parameters of the embedding: `inpaint` models `cv2.inpaint` (arguments:
frame, mask, radius), `gaussianBlurFrame` models `cv2.GaussianBlur` on a
frame (argument: kernel size), and `gaussianBlurMask` models
`cv2.GaussianBlur` on the float mask (argument: kernel size). -/
structure CvEnv where
  inpaint : FrameData → Mask → ℕ → FrameData
  gaussianBlurFrame : FrameData → ℕ → FrameData
  gaussianBlurMask : (ℕ × ℕ → ℚ) → ℕ → (ℕ × ℕ → ℚ)

/-- The numpy `astype(np.uint8)` conversion applied to a nonnegative
float: truncate to an integer and wrap modulo 2^8. -/
def u8cast (q : ℚ) : ℕ :=
  (Int.toNat ⌊q⌋) % 256

/-- `mask.astype(float) / 255.0`: the binary mask as a 0-or-1 weight. -/
def mask_float (m : Mask) : ℕ × ℕ → ℚ :=
  fun p => (if m p then (255 : ℚ) else 0) / 255

/-- The reconstructed frame of `process_frame_with_watermark`:
`cv2.inpaint(frame, mask, 10, cv2.INPAINT_TELEA)` followed by
`cv2.GaussianBlur(reconstructed, (5, 5), 0)`. -/
def reconstructedOf (env : CvEnv) (frame : FrameData) (m : Mask) : FrameData :=
  env.gaussianBlurFrame (env.inpaint frame m 10) 5

/-- The feathered alpha of `process_frame_with_watermark`:
`cv2.GaussianBlur(mask.astype(float) / 255.0, (21, 21), 0)`, broadcast
across the three colour channels by `np.stack`. -/
def mask_softOf (env : CvEnv) (m : Mask) : ℕ × ℕ → ℚ :=
  env.gaussianBlurMask (mask_float m) 21

/-- Contents of the caller's mask buffer after
`process_frame_with_watermark(frame, mask, t)` returns: the function
draws the rectangles of the active regions into the buffer in place via
`cv2.rectangle`, so afterwards the buffer holds `fillMask`'s result. -/
def maskAfterCall (m : Mask) (t : ℚ) : Mask :=
  (fillMask WATERMARK_MASKS t m).1

/-- The exact value of the per-pixel blend
`mask_soft * reconstructed + (1 - mask_soft) * frame` computed in STEP 4
of `process_frame_with_watermark`, before the `astype(np.uint8)` cast. -/
def blendValue (env : CvEnv) (frame : FrameData) (m : Mask)
    (p : ℕ × ℕ) (c : Fin 3) : ℚ :=
  mask_softOf env m p * (reconstructedOf env frame m p c : ℚ) +
  (1 - mask_softOf env m p) * (frame p c : ℚ)

/-- Shallow embedding of `process_frame_with_watermark` from
`src/main.py`: fill the mask from the active regions; if no region is
active return the input frame unchanged; otherwise inpaint, blur, feather
the mask and blend, casting each sample back to `uint8`. -/
def process_frame_with_watermark (env : CvEnv) (frame : FrameData)
    (mask : Mask) (current_time : ℚ) : FrameData :=
  let fm := fillMask WATERMARK_MASKS current_time mask
  if fm.2 = false then frame
  else fun p c => u8cast (blendValue env frame fm.1 p c)

/-- A trivial instantiation of the cv2 collaborators (identity inpainting
and blurs), used to exercise the theorems on concrete inputs. -/
def trivCvEnv : CvEnv :=
  ⟨fun f _ _ => f, fun f _ => f, fun m _ => m⟩

/-- A frame all of whose samples have the same value. -/
def constFrame (v : ℕ) : FrameData := fun _ _ => v

/-- The reconstruction result for slot `i` of a batch: the worker thread
for index `i` runs `process_frame_with_watermark` on the i-th frame of
the batch, the i-th freshly allocated zero mask, and the i-th timestamp
(`executor.map(process_frame_with_watermark, frame_batch, masks,
time_batch)` in `process_video_with_inpainting`). -/
def frameResult (env : CvEnv) (fb : List FrameData) (tb : List ℚ)
    (i : ℕ) : FrameData :=
  process_frame_with_watermark env (fb.getD i default) zeroMask (tb.getD i 0)

/-- The per-batch results in worker completion order: the pool finishes
the batch's tasks in some order `order` (a permutation of the indices),
each completion carrying its submission index. -/
def scatterByCompletion (env : CvEnv) (fb : List FrameData) (tb : List ℚ)
    (order : List ℕ) : List (ℕ × FrameData) :=
  order.map fun i => (i, frameResult env fb tb i)

/-- `executor.map` over one batch: although workers may complete in any
order given by the scheduler `sched`, the results are read back by
submission index, so slot `j` of the returned list holds the result for
frame `j` of the batch. -/
def executorMapBatch (env : CvEnv)
    (sched : List FrameData → List ℚ → List ℕ)
    (fb : List FrameData) (tb : List ℚ) : List FrameData :=
  (List.range fb.length).map fun j =>
    ((scatterByCompletion env fb tb (sched fb tb)).lookup j).getD default

/-- A scheduler is valid when every batch's completion order is a
permutation of the batch's indices: each submitted task completes exactly
once. -/
def ValidSched (sched : List FrameData → List ℚ → List ℕ) : Prop :=
  ∀ fb tb, (sched fb tb).Perm (List.range fb.length)

/-- The completion order of a single worker: indices in submission
order (pool size 1). -/
def seqOrder : List FrameData → List ℚ → List ℕ :=
  fun fb _ => List.range fb.length

/-- A completion order in which later submissions finish first (an
adversarial multi-worker schedule). -/
def revOrder : List FrameData → List ℚ → List ℕ :=
  fun fb _ => (List.range fb.length).reverse

/-- Applying the per-frame reconstruction sequentially, in decode order,
each frame with its own fresh zero mask: the reference behaviour the
batch pipeline must match. -/
def seqReconstruct (env : CvEnv) (fb : List FrameData) (tb : List ℚ) :
    List FrameData :=
  List.zipWith (fun f t => process_frame_with_watermark env f zeroMask t) fb tb

/-- Timestamps `current_frame_num / fps` for `len` consecutive frames
starting at frame index `start`. -/
def timestampsFrom (fps : ℚ) : ℕ → ℕ → List ℚ
  | _, 0 => []
  | start, len + 1 => ((start : ℚ) / fps) :: timestampsFrom fps (start + 1) len

/-- One write to `processing_status[task_id]`: a full record assignment,
a mutation of just the `progress` field, or a mutation of just the
`status` field. -/
inductive StatusWrite
  | setTask (status : String) (progress : Option ℕ) (message : Option String)
  | setProgress (p : ℕ)
  | setStatus (status : String)
deriving DecidableEq, Repr

/-- The sequence of values written to the `progress` field of the status
record, in write order. -/
def progressVals (ws : List StatusWrite) : List ℕ :=
  ws.filterMap fun w =>
    match w with
    | .setTask _ (some p) _ => some p
    | .setProgress p => some p
    | _ => none

/-- A Python exception escaping the frame loop. -/
inductive PyErr
  | zeroDivisionError
deriving DecidableEq, Repr

/-- Parameters of one `process_video_with_inpainting` run that are fixed
for the whole frame loop.  `batch_size` is 50 and `max_workers` is
`min(8, multiprocessing.cpu_count())` at the call site; `fps` and
`frame_count` come from the capture's metadata. -/
structure PipeParams where
  env : CvEnv
  sched : List FrameData → List ℚ → List ℕ
  batch_size : ℕ
  max_workers : ℕ
  fps : ℚ
  frame_count : ℕ

/-- Mutable state of the frame loop of `process_video_with_inpainting`:
frames already written to the output `VideoWriter`, the accumulating
`frame_batch` and `time_batch`, the status writes issued so far, and
`current_frame_num`. -/
structure PipeState where
  written : List FrameData
  frame_batch : List FrameData
  time_batch : List ℚ
  writes : List StatusWrite
  n : ℕ

/-- One iteration of the `while cap.isOpened()` loop body for a
successfully decoded frame: compute the timestamp, append the frame and
time to the batches, and if the batch is full (`len >= batch_size`) or
this is the metadata-final frame (`current_frame_num == frame_count - 1`)
flush the batch through the worker pool, write the results in order, and
report progress `int((current_frame_num + 1) / frame_count * 100)`.
Python raises `ZeroDivisionError` when `fps` is 0 (timestamp) or when a
flush divides by `frame_count = 0`. -/
def stepLoop (P : PipeParams) (s : PipeState) (frame : FrameData) :
    Except PyErr PipeState :=
  if P.fps = 0 then .error .zeroDivisionError
  else
    let t := (s.n : ℚ) / P.fps
    let fb := s.frame_batch ++ [frame]
    let tb := s.time_batch ++ [t]
    if P.batch_size ≤ fb.length ∨ (s.n : ℤ) = (P.frame_count : ℤ) - 1 then
      if P.frame_count = 0 then .error .zeroDivisionError
      else
        .ok { written := s.written ++ executorMapBatch P.env P.sched fb tb,
              frame_batch := [], time_batch := [],
              writes := s.writes ++
                [.setProgress ((100 * (s.n + 1)) / P.frame_count)],
              n := s.n + 1 }
    else
      .ok { s with frame_batch := fb, time_batch := tb, n := s.n + 1 }

/-- The frame loop run over the list of frames the decoder yields before
`cap.read()` first returns `ret = False`. -/
def runLoop (P : PipeParams) : List FrameData → PipeState → Except PyErr PipeState
  | [], s => .ok s
  | f :: rest, s =>
    match stepLoop P s f with
    | .error e => .error e
    | .ok s' => runLoop P rest s'

/-- What ends up at `output_video_path` after the audio stage. -/
inductive OutputFile
  | videoOnly
  | muxed
deriving DecidableEq, Repr

/-- The audio remux stage of `process_video_with_inpainting`: run ffmpeg
(an external collaborator whose effect is summarized by `muxedSize`, the
size of the file it left at `output_with_audio`, or `none` if it created
no file).  Only when the muxed file exists and is non-empty is the
video-only intermediate replaced by it; otherwise — ffmpeg failing,
exiting non-zero, or raising — the `except: pass` swallows everything
and the video-only intermediate stays at `output_video_path`. -/
def addAudio (muxedSize : Option ℕ) : OutputFile :=
  match muxedSize with
  | some k => if 0 < k then .muxed else .videoOnly
  | none => .videoOnly

/-- The observable outcome of one `process_video_with_inpainting` run:
all status writes in order, the frames written to the output video, and
which file is left at the output path (`none` when the source could not
be opened and the function returned `None` before writing anything). -/
structure RunOutcome where
  writes : List StatusWrite
  written : List FrameData
  output : Option OutputFile

/-- Shallow embedding of `process_video_with_inpainting` from
`src/main.py`, for a run with a task id.  Inputs beyond the parameters of
the Python function: `opened` (whether `cap.isOpened()`), `frames` (the
frames the decoder yields before `ret` turns false), `fps` and
`frame_count` (capture metadata), and `muxedSize` (the external ffmpeg
invocation's effect).  The embedding returns the status writes, written
frames and final output file, or `Except.error` for an escaping Python
exception. -/
def process_video_with_inpainting (env : CvEnv)
    (sched : List FrameData → List ℚ → List ℕ) (cpu_count : ℕ)
    (opened : Bool) (frames : List FrameData) (fps : ℚ) (frame_count : ℕ)
    (muxedSize : Option ℕ) : Except PyErr RunOutcome :=
  let w0 : List StatusWrite := [.setTask "processing" (some 0) none]
  if opened = false then
    .ok { writes := w0 ++ [.setTask "error" none (some "Could not open video file")],
          written := [], output := none }
  else
    let batch_size := 50
    let max_workers := min 8 cpu_count
    let P : PipeParams := ⟨env, sched, batch_size, max_workers, fps, frame_count⟩
    match runLoop P frames ⟨[], [], [], [], 0⟩ with
    | .error e => .error e
    | .ok s =>
      .ok { writes := w0 ++ s.writes ++ [.setStatus "adding_audio",
              .setTask "completed" (some 100) none],
            written := s.written,
            output := some (addAudio muxedSize) }

/-- Shallow embedding of `generate_unique_task_id` from `src/main.py`.
The candidate ids produced by the timestamp/`secrets.token_hex` generator
are an external input, modelled as the stream `candidates`; the global
`used_task_ids` set is modelled as a list.  The loop returns the first
candidate not already used, after adding it to the set (`none` models the
loop never returning because every candidate collides). -/
def generate_unique_task_id (used : List String) :
    List String → Option (String × List String)
  | [] => none
  | c :: rest =>
    if c ∈ used then generate_unique_task_id used rest
    else some (c, c :: used)

/- ------------------------------------------------------------------ -/
/- Theorems                                                           -/
/- ------------------------------------------------------------------ -/

lemma fillMask_go_spec (t : ℚ) (rs : List Region) :
    ∀ (m : Mask) (b : Bool),
      (∀ p, (rs.foldl (fillStep t) (m, b)).1 p = (m p || maskUnion rs t p)) ∧
      (rs.foldl (fillStep t) (m, b)).2 = (b || anyActive rs t) := by
  induction rs with
  | nil => intro m b; simp [maskUnion, anyActive]
  | cons r rs ih =>
    intro m b
    rcases Bool.eq_false_or_eq_true (isActive r t) with hr | hr
    · have h := ih (fun p => m p || inRect r p) true
      have hstep : fillStep t (m, b) r = (fun p => m p || inRect r p, true) := by
        simp [fillStep, hr]
      refine ⟨fun p => ?_, ?_⟩
      · rw [List.foldl_cons, hstep, h.1 p]
        simp [maskUnion, List.any_cons, hr, Bool.or_assoc]
      · rw [List.foldl_cons, hstep, h.2]
        simp [anyActive, List.any_cons, hr]
    · have h := ih m b
      have hstep : fillStep t (m, b) r = (m, b) := by simp [fillStep, hr]
      refine ⟨fun p => ?_, ?_⟩
      · rw [List.foldl_cons, hstep, h.1 p]
        simp [maskUnion, List.any_cons, hr]
      · rw [List.foldl_cons, hstep, h.2]
        simp [anyActive, List.any_cons, hr]

lemma fillMask_fst (rs : List Region) (t : ℚ) (m0 : Mask) (p : ℕ × ℕ) :
    (fillMask rs t m0).1 p = (m0 p || maskUnion rs t p) :=
  (fillMask_go_spec t rs m0 false).1 p

lemma fillMask_snd (rs : List Region) (t : ℚ) (m0 : Mask) :
    (fillMask rs t m0).2 = anyActive rs t := by
  have h := (fillMask_go_spec t rs m0 false).2
  simpa using h

lemma maskUnion_eq_false_of_not_active (rs : List Region) (t : ℚ)
    (h : anyActive rs t = false) (p : ℕ × ℕ) :
    maskUnion rs t p = false := by
  rw [anyActive, List.any_eq_false] at h
  rw [maskUnion, List.any_eq_false]
  intro r hr
  simp [h r hr]

/-- Claim C1: the mask produced for a frame at timestamp `t` (starting,
as the pipeline does, from a fresh zero mask) equals the union of the
rectangles of exactly the configured regions whose half-open window
`[start, end)` contains `t`, the `is_watermark_present` report is exactly
"some region is active", and when no region is active the resulting mask
is empty. -/
theorem resolve_mask_is_union (t : ℚ) (p : ℕ × ℕ) :
    (fillMask WATERMARK_MASKS t zeroMask).1 p = maskUnion WATERMARK_MASKS t p
    ∧ (fillMask WATERMARK_MASKS t zeroMask).2 = anyActive WATERMARK_MASKS t
    ∧ (anyActive WATERMARK_MASKS t = false →
        (fillMask WATERMARK_MASKS t zeroMask).1 p = false) := by
  refine ⟨?_, fillMask_snd _ _ _, ?_⟩
  · rw [fillMask_fst]
    simp [zeroMask]
  · intro h
    rw [fillMask_fst, maskUnion_eq_false_of_not_active _ _ h]
    simp [zeroMask]

/-- Instance of `resolve_mask_is_union` at `t = 0.5` s (regions 1 and 2
active) and the pixel `(330, 404)` (inside region 1's rectangle): the
resolved mask is set there and activity is reported. -/
theorem resolve_mask_is_union_witness :
    (fillMask WATERMARK_MASKS (1/2) zeroMask).1 (330, 404) = true
    ∧ (fillMask WATERMARK_MASKS (1/2) zeroMask).2 = true := by
  have h := resolve_mask_is_union (1/2) (330, 404)
  refine ⟨?_, ?_⟩
  · rw [h.1]
    simp [maskUnion, isActive, inRect, WATERMARK_MASKS]
    norm_num
  · rw [h.2.1]
    simp [anyActive, isActive, WATERMARK_MASKS]
    norm_num

/-- Claim C2: when no region's window contains the frame's timestamp
(so the resolved mask is empty), `process_frame_with_watermark` returns
the input frame unchanged — the very same frame, hence byte-for-byte
identical. -/
theorem reconstruct_empty_mask_identity (env : CvEnv) (frame : FrameData)
    (mask : Mask) (t : ℚ) (h : anyActive WATERMARK_MASKS t = false) :
    process_frame_with_watermark env frame mask t = frame := by
  simp [process_frame_with_watermark, fillMask_snd, h]

/-- Instance of `reconstruct_empty_mask_identity` at `t = 20` s: no
region is active (all windows end by 9.8 s) and the frame passes through
unchanged. -/
theorem reconstruct_empty_mask_identity_witness :
    process_frame_with_watermark trivCvEnv (constFrame 7) zeroMask 20 =
      constFrame 7 := by
  apply reconstruct_empty_mask_identity
  norm_num [anyActive, isActive, WATERMARK_MASKS]

/-- Claim C7 counterexample: `process_frame_with_watermark` does NOT
treat its mask argument as read-only.  At `t = 0` region 1 is active and
the call draws its rectangle into the caller's buffer: the pixel
`(340, 410)` is 0 before the call and 255 after it. -/
theorem mask_not_read_only_cex :
    maskAfterCall zeroMask 0 (340, 410) = true
    ∧ zeroMask (340, 410) = false := by
  constructor
  · rw [maskAfterCall, fillMask_fst]
    norm_num [zeroMask, maskUnion, isActive, inRect, WATERMARK_MASKS]
  · rfl

/-- Claim C7 amended: the call mutates its mask buffer, but only by
drawing the rectangles of the currently active regions into it (mask
after the call = mask before ∪ active rectangles); and in the batch
pipeline each frame's worker operates on that frame's own freshly
allocated zero mask (`frameResult` uses `zeroMask`), so no buffer shared
with another in-flight frame is ever mutated. -/
theorem mask_mutation_is_active_rectangles (m : Mask) (t : ℚ) (p : ℕ × ℕ)
    (env : CvEnv) (fb : List FrameData) (tb : List ℚ) (i : ℕ) :
    maskAfterCall m t p = (m p || maskUnion WATERMARK_MASKS t p)
    ∧ frameResult env fb tb i =
        process_frame_with_watermark env (fb.getD i default) zeroMask
          (tb.getD i 0) :=
  ⟨fillMask_fst _ _ _ _, rfl⟩

/-- Claim C8: for a frame with a non-empty mask, each output sample is
the blend `alpha * reconstructed + (1 - alpha) * original` (with `alpha`
the blurred mask weight, broadcast over the channels), truncated to an
integer; and provided the blurred mask weight lies in `[0, 1]` and the
reconstructed and original samples are 8-bit (≤ 255) — which the real
cv2 operators guarantee — the blend lies in `[0, 255]`, so the
`astype(np.uint8)` conversion never wraps and the output equals the
clamped value. -/
theorem blend_clamped_no_wrap (env : CvEnv) (frame : FrameData)
    (mask : Mask) (t : ℚ)
    (hact : anyActive WATERMARK_MASKS t = true)
    (hsoft : ∀ p, 0 ≤ mask_softOf env (maskAfterCall mask t) p ∧
        mask_softOf env (maskAfterCall mask t) p ≤ 1)
    (hrec : ∀ p c, reconstructedOf env frame (maskAfterCall mask t) p c ≤ 255)
    (hframe : ∀ p c, frame p c ≤ 255) (p : ℕ × ℕ) (c : Fin 3) :
    process_frame_with_watermark env frame mask t p c =
      min 255 (Int.toNat ⌊blendValue env frame (maskAfterCall mask t) p c⌋)
    ∧ 0 ≤ blendValue env frame (maskAfterCall mask t) p c
    ∧ blendValue env frame (maskAfterCall mask t) p c ≤ 255 := by
  have ha0 : (0 : ℚ) ≤ mask_softOf env (maskAfterCall mask t) p := (hsoft p).1
  have ha1 : mask_softOf env (maskAfterCall mask t) p ≤ 1 := (hsoft p).2
  have hr : ((reconstructedOf env frame (maskAfterCall mask t) p c : ℕ) : ℚ) ≤ 255 := by
    exact_mod_cast hrec p c
  have hf : ((frame p c : ℕ) : ℚ) ≤ 255 := by exact_mod_cast hframe p c
  have hr0 : (0 : ℚ) ≤ (reconstructedOf env frame (maskAfterCall mask t) p c : ℚ) :=
    Nat.cast_nonneg _
  have hf0 : (0 : ℚ) ≤ (frame p c : ℚ) := Nat.cast_nonneg _
  have h1a : (0 : ℚ) ≤ 1 - mask_softOf env (maskAfterCall mask t) p := by linarith
  have hv0 : 0 ≤ blendValue env frame (maskAfterCall mask t) p c := by
    rw [blendValue]
    have := mul_nonneg ha0 hr0
    have := mul_nonneg h1a hf0
    linarith
  have hv255 : blendValue env frame (maskAfterCall mask t) p c ≤ 255 := by
    rw [blendValue]
    have h2 := mul_le_mul_of_nonneg_left hr ha0
    have h3 := mul_le_mul_of_nonneg_left hf h1a
    nlinarith
  have hfl0 : 0 ≤ ⌊blendValue env frame (maskAfterCall mask t) p c⌋ :=
    Int.floor_nonneg.2 hv0
  have hfl255 : ⌊blendValue env frame (maskAfterCall mask t) p c⌋ ≤ 255 := by
    have := Int.floor_le_floor hv255
    simpa using this
  have htn : Int.toNat ⌊blendValue env frame (maskAfterCall mask t) p c⌋ ≤ 255 := by
    omega
  refine ⟨?_, hv0, hv255⟩
  have hproc : process_frame_with_watermark env frame mask t p c =
      u8cast (blendValue env frame (maskAfterCall mask t) p c) := by
    rw [process_frame_with_watermark]
    rw [fillMask_snd, hact]
    simp [maskAfterCall]
  rw [hproc, u8cast, Nat.mod_eq_of_lt (by omega), min_eq_right htn]

/-- Instance of `blend_clamped_no_wrap` with the identity cv2 operators,
a constant frame of value 100 and `t = 0` (region 1 active): the blended
output pixel at `(0, 0)` equals the clamped truncated blend and the blend
lies in `[0, 255]`. -/
theorem blend_clamped_no_wrap_witness :
    process_frame_with_watermark trivCvEnv (constFrame 100) zeroMask 0 (0, 0) 0 =
      min 255 (Int.toNat ⌊blendValue trivCvEnv (constFrame 100)
        (maskAfterCall zeroMask 0) (0, 0) 0⌋)
    ∧ 0 ≤ blendValue trivCvEnv (constFrame 100) (maskAfterCall zeroMask 0) (0, 0) 0
    ∧ blendValue trivCvEnv (constFrame 100) (maskAfterCall zeroMask 0) (0, 0) 0 ≤ 255 := by
  apply blend_clamped_no_wrap
  · norm_num [anyActive, isActive, WATERMARK_MASKS]
  · intro p
    rcases Bool.eq_false_or_eq_true (maskAfterCall zeroMask 0 p) with hm | hm <;>
      simp [mask_softOf, trivCvEnv, mask_float, hm]
  · intro p c
    simp [reconstructedOf, trivCvEnv, constFrame]
  · intro p c
    simp [constFrame]

/-- Claim C10: when `generate_unique_task_id` returns, the returned id
was not in the used-id set at return time, and the set afterwards is the
old set with the new id added — so within one process lifetime two tasks
never share an id. -/
theorem task_id_unique (used cands : List String) (tid : String)
    (used' : List String)
    (h : generate_unique_task_id used cands = some (tid, used')) :
    tid ∉ used ∧ used' = tid :: used := by
  induction cands with
  | nil => simp [generate_unique_task_id] at h
  | cons c rest ih =>
    rw [generate_unique_task_id] at h
    by_cases hc : c ∈ used
    · rw [if_pos hc] at h
      exact ih h
    · rw [if_neg hc] at h
      simp only [Option.some.injEq, Prod.mk.injEq] at h
      obtain ⟨h1, h2⟩ := h
      subst h1
      subst h2
      exact ⟨hc, rfl⟩

/-- Instance of `task_id_unique`: with used set `["a"]` and candidate
stream `["a", "b"]` the generator skips the collision and returns `"b"`,
which is fresh and gets recorded. -/
theorem task_id_unique_witness :
    "b" ∉ ["a"] ∧ ["b", "a"] = "b" :: ["a"] :=
  task_id_unique ["a"] ["a", "b"] "b" ["b", "a"] (by rfl)

lemma lookup_scatter (g : ℕ → FrameData) (order : List ℕ) (j : ℕ)
    (hj : j ∈ order) :
    List.lookup j (order.map fun i => (i, g i)) = some (g j) := by
  induction order with
  | nil => cases hj
  | cons i os ih =>
    by_cases hji : j = i
    · subst hji
      simp [List.lookup]
    · have : j ∈ os := by
        rcases List.mem_cons.1 hj with h | h
        · exact absurd h hji
        · exact h
      have hbeq : (j == i) = false := by
        simp [hji]
      simp [List.lookup, hbeq, ih this]

lemma executorMapBatch_eq_map (env : CvEnv)
    (sched : List FrameData → List ℚ → List ℕ) (hV : ValidSched sched)
    (fb : List FrameData) (tb : List ℚ) :
    executorMapBatch env sched fb tb =
      (List.range fb.length).map (frameResult env fb tb) := by
  rw [executorMapBatch]
  apply List.map_congr_left
  intro j hj
  have hjlen : j < fb.length := List.mem_range.1 hj
  have hjord : j ∈ sched fb tb := ((hV fb tb).mem_iff).2 hj
  rw [scatterByCompletion, lookup_scatter _ _ _ hjord]
  rfl

lemma range_map_frameResult (env : CvEnv) :
    ∀ (fb : List FrameData) (tb : List ℚ), fb.length = tb.length →
      (List.range fb.length).map (frameResult env fb tb) =
        seqReconstruct env fb tb := by
  intro fb
  induction fb with
  | nil => intro tb _; simp [seqReconstruct]
  | cons f fb ih =>
    intro tb hlen
    cases tb with
    | nil => simp at hlen
    | cons t tb =>
      have hlen' : fb.length = tb.length := by simpa using hlen
      rw [List.length_cons, List.range_succ_eq_map, List.map_cons,
        List.map_map]
      have h0 : frameResult env (f :: fb) (t :: tb) 0 =
          process_frame_with_watermark env f zeroMask t := rfl
      have hsucc : ((frameResult env (f :: fb) (t :: tb)) ∘ Nat.succ) =
          frameResult env fb tb := by
        funext i
        rfl
      rw [h0, hsucc, ih tb hlen']
      rfl

lemma executorMapBatch_eq_seq (env : CvEnv)
    (sched : List FrameData → List ℚ → List ℕ) (hV : ValidSched sched)
    (fb : List FrameData) (tb : List ℚ) (hlen : fb.length = tb.length) :
    executorMapBatch env sched fb tb = seqReconstruct env fb tb := by
  rw [executorMapBatch_eq_map env sched hV, range_map_frameResult env fb tb hlen]

lemma timestampsFrom_succ (fps : ℚ) (start len : ℕ) :
    timestampsFrom fps start (len + 1) =
      ((start : ℚ) / fps) :: timestampsFrom fps (start + 1) len := rfl

lemma stepLoop_flush (P : PipeParams) (s : PipeState) (f : FrameData)
    (hfps : P.fps ≠ 0) (hfc : P.frame_count ≠ 0)
    (hcond : P.batch_size ≤ (s.frame_batch ++ [f]).length ∨
      (s.n : ℤ) = (P.frame_count : ℤ) - 1) :
    stepLoop P s f = .ok
      { written := s.written ++ executorMapBatch P.env P.sched
          (s.frame_batch ++ [f]) (s.time_batch ++ [(s.n : ℚ) / P.fps]),
        frame_batch := [], time_batch := [],
        writes := s.writes ++
          [.setProgress ((100 * (s.n + 1)) / P.frame_count)],
        n := s.n + 1 } := by
  simp only [stepLoop]
  rw [if_neg hfps, if_pos hcond, if_neg hfc]

lemma stepLoop_noflush (P : PipeParams) (s : PipeState) (f : FrameData)
    (hfps : P.fps ≠ 0)
    (hcond : ¬(P.batch_size ≤ (s.frame_batch ++ [f]).length ∨
      (s.n : ℤ) = (P.frame_count : ℤ) - 1)) :
    stepLoop P s f = .ok
      { s with frame_batch := s.frame_batch ++ [f],
               time_batch := s.time_batch ++ [(s.n : ℚ) / P.fps],
               n := s.n + 1 } := by
  simp only [stepLoop]
  rw [if_neg hfps, if_neg hcond]

lemma runLoop_cons_ok (P : PipeParams) (f : FrameData)
    (rest : List FrameData) (s s1 : PipeState)
    (h : stepLoop P s f = .ok s1) :
    runLoop P (f :: rest) s = runLoop P rest s1 := by
  rw [runLoop, h]

lemma runLoop_full_decode (P : PipeParams) (hV : ValidSched P.sched)
    (hfps : P.fps ≠ 0) (hfc : 0 < P.frame_count) :
    ∀ (rest : List FrameData) (s : PipeState),
      s.n + rest.length = P.frame_count →
      s.frame_batch.length = s.time_batch.length →
      (rest = [] → s.frame_batch = []) →
      ∃ s', runLoop P rest s = .ok s' ∧
        s'.written = s.written ++
          seqReconstruct P.env (s.frame_batch ++ rest)
            (s.time_batch ++ timestampsFrom P.fps s.n rest.length) := by
  intro rest
  induction rest with
  | nil =>
    intro s _ hlen hempty
    have hfb := hempty rfl
    have htb : s.time_batch = [] := by
      rw [hfb] at hlen
      exact List.length_eq_zero.mp hlen.symm
    refine ⟨s, rfl, ?_⟩
    simp [hfb, htb, timestampsFrom, seqReconstruct]
  | cons f rest ih =>
    intro s hn hlen hempty
    have hlen' : (s.frame_batch ++ [f]).length =
        (s.time_batch ++ [(s.n : ℚ) / P.fps]).length := by
      simp [hlen]
    by_cases hflush : P.batch_size ≤ (s.frame_batch ++ [f]).length ∨
        (s.n : ℤ) = (P.frame_count : ℤ) - 1
    · have hstep := stepLoop_flush P s f hfps (by omega) hflush
      rw [runLoop_cons_ok P f rest s _ hstep]
      obtain ⟨s', hrun, hw⟩ := ih
        { written := s.written ++ executorMapBatch P.env P.sched
            (s.frame_batch ++ [f]) (s.time_batch ++ [(s.n : ℚ) / P.fps]),
          frame_batch := [], time_batch := [],
          writes := s.writes ++
            [.setProgress ((100 * (s.n + 1)) / P.frame_count)],
          n := s.n + 1 }
        (by simp at hn ⊢; omega) (by simp) (fun _ => rfl)
      refine ⟨s', hrun, ?_⟩
      rw [hw]
      simp only [List.nil_append, List.length_cons]
      rw [executorMapBatch_eq_seq P.env P.sched hV _ _ hlen']
      rw [timestampsFrom_succ]
      rw [show s.frame_batch ++ f :: rest = (s.frame_batch ++ [f]) ++ rest by simp]
      rw [show s.time_batch ++ ((s.n : ℚ) / P.fps) :: timestampsFrom P.fps (s.n + 1) rest.length =
        (s.time_batch ++ [(s.n : ℚ) / P.fps]) ++ timestampsFrom P.fps (s.n + 1) rest.length by simp]
      rw [seqReconstruct, seqReconstruct, seqReconstruct,
        List.zipWith_append _ _ _ _ _ hlen']
      simp [List.append_assoc]
    · have hstep := stepLoop_noflush P s f hfps hflush
      rw [runLoop_cons_ok P f rest s _ hstep]
      push_neg at hflush
      obtain ⟨hnb, hnlast⟩ := hflush
      have hrest : rest ≠ [] := by
        intro hrest
        subst hrest
        simp at hn
        apply hnlast
        omega
      obtain ⟨s', hrun, hw⟩ := ih
        { s with frame_batch := s.frame_batch ++ [f],
                 time_batch := s.time_batch ++ [(s.n : ℚ) / P.fps],
                 n := s.n + 1 }
        (by simp at hn ⊢; omega) (by simp [hlen]) (fun h => absurd h hrest)
      refine ⟨s', hrun, ?_⟩
      rw [hw]
      simp only [List.length_cons]
      rw [timestampsFrom_succ]
      congr 1
      rw [seqReconstruct, seqReconstruct]
      congr 1 <;> simp

lemma process_video_ok_written (env : CvEnv)
    (sched : List FrameData → List ℚ → List ℕ) (cpu_count : ℕ)
    (frames : List FrameData) (fps : ℚ) (frame_count : ℕ) (mux : Option ℕ)
    (hV : ValidSched sched) (hfps : fps ≠ 0)
    (hlen : frames.length = frame_count) (hfc : 0 < frame_count) :
    ∃ r, process_video_with_inpainting env sched cpu_count true frames fps
        frame_count mux = .ok r ∧
      r.written = seqReconstruct env frames (timestampsFrom fps 0 frames.length) := by
  obtain ⟨s', hrun, hw⟩ := runLoop_full_decode
    (⟨env, sched, 50, min 8 cpu_count, fps, frame_count⟩ : PipeParams)
    hV hfps hfc frames ⟨[], [], [], [], 0⟩ (by simpa using hlen) rfl
    (fun _ => rfl)
  have hmain : process_video_with_inpainting env sched cpu_count true frames
      fps frame_count mux =
      .ok { writes := [StatusWrite.setTask "processing" (some 0) none] ++
              s'.writes ++ [.setStatus "adding_audio",
              .setTask "completed" (some 100) none],
            written := s'.written,
            output := some (addAudio mux) } := by
    simp only [process_video_with_inpainting]
    rw [if_neg (by simp), hrun]
  exact ⟨_, hmain, by simpa using hw⟩

/-- Claim C3: the batch pipeline's output does not depend on the worker
pool: for any two pool sizes (`min(8, cpu_count)` workers, in particular
1, 4 and 8) and any two valid worker completion schedules, the run
succeeds and the written frame sequences are identical, both equal to
applying the per-frame reconstruction sequentially in decode order with
timestamps `frame_index / fps`.  (Hypotheses: the decoder yields exactly
`frame_count` frames, `frame_count > 0`, `fps ≠ 0`.) -/
theorem pipeline_output_schedule_independent (env : CvEnv)
    (sched₁ sched₂ : List FrameData → List ℚ → List ℕ) (cpu₁ cpu₂ : ℕ)
    (frames : List FrameData) (fps : ℚ) (frame_count : ℕ) (mux : Option ℕ)
    (h₁ : ValidSched sched₁) (h₂ : ValidSched sched₂) (hfps : fps ≠ 0)
    (hlen : frames.length = frame_count) (hfc : 0 < frame_count) :
    ∃ r₁ r₂,
      process_video_with_inpainting env sched₁ cpu₁ true frames fps
        frame_count mux = .ok r₁ ∧
      process_video_with_inpainting env sched₂ cpu₂ true frames fps
        frame_count mux = .ok r₂ ∧
      r₁.written = r₂.written ∧
      r₁.written = seqReconstruct env frames (timestampsFrom fps 0 frames.length) := by
  obtain ⟨r₁, hr₁, hw₁⟩ := process_video_ok_written env sched₁ cpu₁ frames fps
    frame_count mux h₁ hfps hlen hfc
  obtain ⟨r₂, hr₂, hw₂⟩ := process_video_ok_written env sched₂ cpu₂ frames fps
    frame_count mux h₂ hfps hlen hfc
  exact ⟨r₁, r₂, hr₁, hr₂, hw₁.trans hw₂.symm, hw₁⟩

/-- Instance of `pipeline_output_schedule_independent` on a two-frame
video at 30 fps: a single-worker in-order schedule (`seqOrder`, pool size
`min 8 1 = 1`) and an adversarial reversed completion schedule
(`revOrder`, pool size `min 8 8 = 8`) produce the same written frames,
equal to the sequential per-frame reconstruction. -/
theorem pipeline_output_schedule_independent_witness :
    ∃ r₁ r₂,
      process_video_with_inpainting trivCvEnv seqOrder 1 true
        [constFrame 5, constFrame 6] 30 2 (some 1) = .ok r₁ ∧
      process_video_with_inpainting trivCvEnv revOrder 8 true
        [constFrame 5, constFrame 6] 30 2 (some 1) = .ok r₂ ∧
      r₁.written = r₂.written ∧
      r₁.written = seqReconstruct trivCvEnv [constFrame 5, constFrame 6]
        (timestampsFrom 30 0 2) :=
  pipeline_output_schedule_independent trivCvEnv seqOrder revOrder 1 8
    [constFrame 5, constFrame 6] 30 2 (some 1)
    (fun _ _ => List.Perm.refl _) (fun fb _ => List.reverse_perm _)
    (by norm_num) rfl (by norm_num)

lemma progressVals_append (a b : List StatusWrite) :
    progressVals (a ++ b) = progressVals a ++ progressVals b := by
  simp [progressVals, List.filterMap_append]

lemma runLoop_writes_monotone (P : PipeParams) (hfps : P.fps ≠ 0)
    (hfc : 0 < P.frame_count) :
    ∀ (rest : List FrameData) (s : PipeState),
      s.n + rest.length ≤ P.frame_count →
      (∀ v ∈ progressVals s.writes, v ≤ (100 * s.n) / P.frame_count) →
      List.Chain' (· ≤ ·) (progressVals s.writes) →
      ∃ s', runLoop P rest s = .ok s' ∧
        s'.n = s.n + rest.length ∧
        (∀ v ∈ progressVals s'.writes, v ≤ (100 * s'.n) / P.frame_count) ∧
        List.Chain' (· ≤ ·) (progressVals s'.writes) := by
  intro rest
  induction rest with
  | nil =>
    intro s _ hbound hchain
    exact ⟨s, rfl, by simp, hbound, hchain⟩
  | cons f rest ih =>
    intro s hn hbound hchain
    have hmono : (100 * s.n) / P.frame_count ≤
        (100 * (s.n + 1)) / P.frame_count :=
      Nat.div_le_div_right (by omega)
    by_cases hflush : P.batch_size ≤ (s.frame_batch ++ [f]).length ∨
        (s.n : ℤ) = (P.frame_count : ℤ) - 1
    · have hstep := stepLoop_flush P s f hfps (by omega) hflush
      rw [runLoop_cons_ok P f rest s _ hstep]
      have hpv : progressVals (s.writes ++
          [StatusWrite.setProgress ((100 * (s.n + 1)) / P.frame_count)]) =
          progressVals s.writes ++ [(100 * (s.n + 1)) / P.frame_count] := by
        rw [progressVals_append]
        rfl
      obtain ⟨s', hrun, hsn, hbd, hch⟩ := ih
        { written := s.written ++ executorMapBatch P.env P.sched
            (s.frame_batch ++ [f]) (s.time_batch ++ [(s.n : ℚ) / P.fps]),
          frame_batch := [], time_batch := [],
          writes := s.writes ++
            [.setProgress ((100 * (s.n + 1)) / P.frame_count)],
          n := s.n + 1 }
        (by simp at hn ⊢; omega)
        (by
          intro v hv
          simp only [hpv, List.mem_append, List.mem_singleton] at hv
          rcases hv with hv | hv
          · exact le_trans (hbound v hv) hmono
          · simp [hv])
        (by
          rw [hpv, List.chain'_append]
          refine ⟨hchain, List.chain'_singleton _, ?_⟩
          intro x hx y hy
          simp only [List.head?_cons, Option.mem_def, Option.some.injEq] at hy
          subst hy
          exact le_trans (hbound x (List.mem_of_mem_getLast? hx)) hmono)
      exact ⟨s', hrun, by simp at hsn ⊢; omega, hbd, hch⟩
    · have hstep := stepLoop_noflush P s f hfps hflush
      rw [runLoop_cons_ok P f rest s _ hstep]
      obtain ⟨s', hrun, hsn, hbd, hch⟩ := ih
        { s with frame_batch := s.frame_batch ++ [f],
                 time_batch := s.time_batch ++ [(s.n : ℚ) / P.fps],
                 n := s.n + 1 }
        (by simp at hn ⊢; omega)
        (by
          intro v hv
          exact le_trans (hbound v hv) hmono)
        hchain
      exact ⟨s', hrun, by simp at hsn ⊢; omega, hbd, hch⟩

/-- Claim C6: within one successful run (the decoder yields at most the
metadata frame count, which is positive), the sequence of values written
to the status record's `progress` field starts at 0, is monotonically
non-decreasing throughout, and terminates at exactly 100 on completion. -/
theorem progress_monotone_zero_to_hundred (env : CvEnv)
    (sched : List FrameData → List ℚ → List ℕ) (cpu_count : ℕ)
    (frames : List FrameData) (fps : ℚ) (frame_count : ℕ) (mux : Option ℕ)
    (hfps : fps ≠ 0) (hfc : 0 < frame_count)
    (hlen : frames.length ≤ frame_count) :
    ∃ r l, process_video_with_inpainting env sched cpu_count true frames fps
        frame_count mux = .ok r ∧
      progressVals r.writes = 0 :: (l ++ [100]) ∧
      List.Chain' (· ≤ ·) (0 :: (l ++ [100])) := by
  obtain ⟨s', hrun, hsn, hbd, hch⟩ := runLoop_writes_monotone
    (⟨env, sched, 50, min 8 cpu_count, fps, frame_count⟩ : PipeParams)
    hfps hfc frames ⟨[], [], [], [], 0⟩ (by simpa using hlen)
    (by intro v hv; simp [progressVals] at hv) (by simp [progressVals])
  have hmain : process_video_with_inpainting env sched cpu_count true frames
      fps frame_count mux =
      .ok { writes := [StatusWrite.setTask "processing" (some 0) none] ++
              s'.writes ++ [.setStatus "adding_audio",
              .setTask "completed" (some 100) none],
            written := s'.written,
            output := some (addAudio mux) } := by
    simp only [process_video_with_inpainting]
    rw [if_neg (by simp), hrun]
  refine ⟨_, progressVals s'.writes, hmain, ?_, ?_⟩
  · simp only [progressVals_append]
    rfl
  · have hle100 : ∀ v ∈ progressVals s'.writes, v ≤ 100 := by
      intro v hv
      have h1 := hbd v hv
      have h2 : (100 * s'.n) / frame_count ≤ 100 := by
        have : 100 * s'.n ≤ 100 * frame_count := by
          simp at hsn
          omega
        calc (100 * s'.n) / frame_count ≤ (100 * frame_count) / frame_count :=
              Nat.div_le_div_right this
          _ = 100 := Nat.mul_div_cancel 100 hfc
      exact le_trans h1 h2
    rw [List.chain'_cons']
    constructor
    · intro y _
      exact Nat.zero_le y
    · rw [List.chain'_append]
      refine ⟨hch, List.chain'_singleton _, ?_⟩
      intro x hx y hy
      simp only [List.head?_cons, Option.mem_def, Option.some.injEq] at hy
      subst hy
      exact hle100 x (List.mem_of_mem_getLast? hx)

/-- Instance of `progress_monotone_zero_to_hundred` on a 60-frame video
(metadata count 60) at 25 fps: the run succeeds and its progress writes
are a non-decreasing sequence from 0 to 100. -/
theorem progress_monotone_zero_to_hundred_witness :
    ∃ r l, process_video_with_inpainting trivCvEnv seqOrder 4 true
        (List.replicate 60 (constFrame 9)) 25 60 none = .ok r ∧
      progressVals r.writes = 0 :: (l ++ [100]) ∧
      List.Chain' (· ≤ ·) (0 :: (l ++ [100])) :=
  progress_monotone_zero_to_hundred trivCvEnv seqOrder 4
    (List.replicate 60 (constFrame 9)) 25 60 none (by norm_num) (by norm_num)
    (by simp)

/-- Claim C9: on a single-frame input (`frame_count = 1`, one decoded
frame) with a nonzero fps, the pipeline raises no exception — in
particular no `ZeroDivisionError` in `progress = (n + 1) / frame_count`
(denominator 1) or in `current_frame_num / fps` — and finishes with the
status writes ending in `completed` with progress exactly 100 (the single
in-loop progress write already being `int(1/1 * 100) = 100`). -/
theorem single_frame_run_completes (env : CvEnv)
    (sched : List FrameData → List ℚ → List ℕ) (cpu_count : ℕ)
    (f : FrameData) (fps : ℚ) (mux : Option ℕ) (hfps : fps ≠ 0) :
    ∃ r, process_video_with_inpainting env sched cpu_count true [f] fps 1 mux
        = .ok r ∧
      r.writes = [.setTask "processing" (some 0) none, .setProgress 100,
        .setStatus "adding_audio", .setTask "completed" (some 100) none] := by
  have hstep := stepLoop_flush
    (⟨env, sched, 50, min 8 cpu_count, fps, 1⟩ : PipeParams)
    ⟨[], [], [], [], 0⟩ f hfps (by norm_num) (Or.inr (by norm_num))
  have hloop : runLoop (⟨env, sched, 50, min 8 cpu_count, fps, 1⟩ : PipeParams)
      [f] ⟨[], [], [], [], 0⟩ = .ok
      { written := [] ++ executorMapBatch env sched ([] ++ [f])
          ([] ++ [((0 : ℕ) : ℚ) / fps]),
        frame_batch := [], time_batch := [],
        writes := [] ++ [.setProgress ((100 * (0 + 1)) / 1)],
        n := 0 + 1 } := by
    rw [runLoop_cons_ok _ f [] _ _ hstep]
    rfl
  have hmain : process_video_with_inpainting env sched cpu_count true [f] fps
      1 mux =
      .ok { writes := [StatusWrite.setTask "processing" (some 0) none] ++
              ([] ++ [.setProgress ((100 * (0 + 1)) / 1)]) ++
              [.setStatus "adding_audio",
               .setTask "completed" (some 100) none],
            written := [] ++ executorMapBatch env sched ([] ++ [f])
              ([] ++ [((0 : ℕ) : ℚ) / fps]),
            output := some (addAudio mux) } := by
    simp only [process_video_with_inpainting]
    rw [if_neg (by simp), hloop]
  exact ⟨_, hmain, by simp⟩

/-- Instance of `single_frame_run_completes` at 30 fps with a failing
mux step: the run still ends `completed` at progress 100. -/
theorem single_frame_run_completes_witness :
    ∃ r, process_video_with_inpainting trivCvEnv seqOrder 2 true
        [constFrame 3] 30 1 none = .ok r ∧
      r.writes = [.setTask "processing" (some 0) none, .setProgress 100,
        .setStatus "adding_audio", .setTask "completed" (some 100) none] :=
  single_frame_run_completes trivCvEnv seqOrder 2 (constFrame 3) 30 none
    (by norm_num)

lemma wrapper_writes_getLast (w : List StatusWrite) :
    ([StatusWrite.setTask "processing" (some 0) none] ++ w ++
      [StatusWrite.setStatus "adding_audio",
       StatusWrite.setTask "completed" (some 100) none]).getLast? =
      some (.setTask "completed" (some 100) none) := by
  rw [show [StatusWrite.setTask "processing" (some 0) none] ++ w ++
      [StatusWrite.setStatus "adding_audio",
       StatusWrite.setTask "completed" (some 100) none] =
      ([StatusWrite.setTask "processing" (some 0) none] ++ w ++
        [StatusWrite.setStatus "adding_audio"]) ++
        [StatusWrite.setTask "completed" (some 100) none] by simp]
  exact List.getLast?_concat _

/-- Claim C4 counterexample: force the external encode step to fail
(ffmpeg leaves no output file, `muxedSize = none`) on a one-frame video.
The claim asserts the task ends in status `error`; in fact the run
succeeds, never writes an `error` status (the writes are exactly
processing/progress/adding_audio/completed), ends `completed` with
progress 100, and keeps the video-only intermediate as the output. -/
theorem encode_failure_not_error_cex :
    ∃ r, process_video_with_inpainting trivCvEnv seqOrder 8 true
        [constFrame 1] 30 1 none = .ok r ∧
      r.writes = [.setTask "processing" (some 0) none, .setProgress 100,
        .setStatus "adding_audio", .setTask "completed" (some 100) none] ∧
      r.output = some .videoOnly := by
  have hstep := stepLoop_flush
    (⟨trivCvEnv, seqOrder, 50, min 8 8, 30, 1⟩ : PipeParams)
    ⟨[], [], [], [], 0⟩ (constFrame 1) (by norm_num) (by norm_num)
    (Or.inr (by norm_num))
  have hloop : runLoop (⟨trivCvEnv, seqOrder, 50, min 8 8, 30, 1⟩ : PipeParams)
      [constFrame 1] ⟨[], [], [], [], 0⟩ = .ok
      { written := [] ++ executorMapBatch trivCvEnv seqOrder ([] ++ [constFrame 1])
          ([] ++ [((0 : ℕ) : ℚ) / 30]),
        frame_batch := [], time_batch := [],
        writes := [] ++ [.setProgress ((100 * (0 + 1)) / 1)],
        n := 0 + 1 } := by
    rw [runLoop_cons_ok _ _ [] _ _ hstep]
    rfl
  have hmain : process_video_with_inpainting trivCvEnv seqOrder 8 true
      [constFrame 1] 30 1 none =
      .ok { writes := [StatusWrite.setTask "processing" (some 0) none] ++
              ([] ++ [.setProgress ((100 * (0 + 1)) / 1)]) ++
              [.setStatus "adding_audio",
               .setTask "completed" (some 100) none],
            written := [] ++ executorMapBatch trivCvEnv seqOrder
              ([] ++ [constFrame 1]) ([] ++ [((0 : ℕ) : ℚ) / 30]),
            output := some (addAudio none) } := by
    simp only [process_video_with_inpainting]
    rw [if_neg (by simp), hloop]
  exact ⟨_, hmain, by simp, rfl⟩

/-- Claim C4 amended: whenever the external encode step fails to produce
a non-empty output file (`muxedSize` is `none` or `some 0`; the process
exit code is never even consulted), any run that completes does so with
the lenient policy (b): the final status write is `completed` with
progress 100, and the pre-mux video-only intermediate remains at the
output path as the final result. -/
theorem encode_failure_keeps_video_only (env : CvEnv)
    (sched : List FrameData → List ℚ → List ℕ) (cpu_count : ℕ)
    (frames : List FrameData) (fps : ℚ) (frame_count : ℕ) (mux : Option ℕ)
    (r : RunOutcome)
    (hok : process_video_with_inpainting env sched cpu_count true frames fps
      frame_count mux = .ok r)
    (hfail : mux = none ∨ mux = some 0) :
    r.output = some .videoOnly ∧
      r.writes.getLast? = some (.setTask "completed" (some 100) none) := by
  simp only [process_video_with_inpainting] at hok
  rw [if_neg (by simp)] at hok
  cases hrl : runLoop (⟨env, sched, 50, min 8 cpu_count, fps, frame_count⟩ :
      PipeParams) frames ⟨[], [], [], [], 0⟩ with
  | error e =>
    rw [hrl] at hok
    simp at hok
  | ok s =>
    rw [hrl] at hok
    simp only [Except.ok.injEq] at hok
    subst hok
    constructor
    · rcases hfail with h | h <;> subst h <;> simp [addAudio]
    · exact wrapper_writes_getLast s.writes

/-- Instance of `encode_failure_keeps_video_only` with a zero-byte mux
output (`muxedSize = some 0`) on a one-frame video: the output stays
video-only and the final status write is `completed`/100. -/
theorem encode_failure_keeps_video_only_witness :
    ∃ r, process_video_with_inpainting trivCvEnv seqOrder 3 true
        [constFrame 2] 30 1 (some 0) = .ok r ∧
      r.output = some OutputFile.videoOnly ∧
      r.writes.getLast? = some (.setTask "completed" (some 100) none) := by
  have hstep := stepLoop_flush
    (⟨trivCvEnv, seqOrder, 50, min 8 3, 30, 1⟩ : PipeParams)
    ⟨[], [], [], [], 0⟩ (constFrame 2) (by norm_num) (by norm_num)
    (Or.inr (by norm_num))
  have hloop : runLoop (⟨trivCvEnv, seqOrder, 50, min 8 3, 30, 1⟩ : PipeParams)
      [constFrame 2] ⟨[], [], [], [], 0⟩ = .ok
      { written := [] ++ executorMapBatch trivCvEnv seqOrder ([] ++ [constFrame 2])
          ([] ++ [((0 : ℕ) : ℚ) / 30]),
        frame_batch := [], time_batch := [],
        writes := [] ++ [.setProgress ((100 * (0 + 1)) / 1)],
        n := 0 + 1 } := by
    rw [runLoop_cons_ok _ _ [] _ _ hstep]
    rfl
  have hmain : process_video_with_inpainting trivCvEnv seqOrder 3 true
      [constFrame 2] 30 1 (some 0) =
      .ok { writes := [StatusWrite.setTask "processing" (some 0) none] ++
              ([] ++ [.setProgress ((100 * (0 + 1)) / 1)]) ++
              [.setStatus "adding_audio",
               .setTask "completed" (some 100) none],
            written := [] ++ executorMapBatch trivCvEnv seqOrder
              ([] ++ [constFrame 2]) ([] ++ [((0 : ℕ) : ℚ) / 30]),
            output := some (addAudio (some 0)) } := by
    simp only [process_video_with_inpainting]
    rw [if_neg (by simp), hloop]
  refine ⟨_, hmain, ?_⟩
  exact encode_failure_keeps_video_only trivCvEnv seqOrder 3 [constFrame 2] 30
    1 (some 0) _ hmain (Or.inr rfl)

/-- Claim C5 counterexample: the decoder yields only 2 of the expected 3
frames (the stream ends mid-read).  The claim asserts the pipeline aborts
and surfaces a terminal failure; in fact the loop just breaks out, the
two decoded-but-unflushed frames are silently dropped, no error status is
ever written, and the task finishes `completed` with progress 100 and an
empty (truncated) output. -/
theorem decode_shortfall_not_error_cex :
    ∃ r, process_video_with_inpainting trivCvEnv seqOrder 8 true
        [constFrame 4, constFrame 4] 30 3 (some 1) = .ok r ∧
      r.writes = [.setTask "processing" (some 0) none,
        .setStatus "adding_audio", .setTask "completed" (some 100) none] ∧
      r.written = [] := by
  have hstep1 := stepLoop_noflush
    (⟨trivCvEnv, seqOrder, 50, min 8 8, 30, 3⟩ : PipeParams)
    ⟨[], [], [], [], 0⟩ (constFrame 4) (by norm_num) (by simp)
  have hstep2 := stepLoop_noflush
    (⟨trivCvEnv, seqOrder, 50, min 8 8, 30, 3⟩ : PipeParams)
    { written := [], frame_batch := [] ++ [constFrame 4],
      time_batch := [] ++ [((0 : ℕ) : ℚ) / 30], writes := [], n := 0 + 1 }
    (constFrame 4) (by norm_num) (by simp)
  have hloop : runLoop (⟨trivCvEnv, seqOrder, 50, min 8 8, 30, 3⟩ : PipeParams)
      [constFrame 4, constFrame 4] ⟨[], [], [], [], 0⟩ = .ok
      { written := [],
        frame_batch := ([] ++ [constFrame 4]) ++ [constFrame 4],
        time_batch := ([] ++ [((0 : ℕ) : ℚ) / 30]) ++ [(((0 + 1 : ℕ)) : ℚ) / 30],
        writes := [], n := (0 + 1) + 1 } := by
    rw [runLoop_cons_ok _ _ [constFrame 4] _ _ hstep1,
      runLoop_cons_ok _ _ [] _ _ hstep2]
    rfl
  have hmain : process_video_with_inpainting trivCvEnv seqOrder 8 true
      [constFrame 4, constFrame 4] 30 3 (some 1) =
      .ok { writes := [StatusWrite.setTask "processing" (some 0) none] ++
              [] ++ [.setStatus "adding_audio",
              .setTask "completed" (some 100) none],
            written := [],
            output := some (addAudio (some 1)) } := by
    simp only [process_video_with_inpainting]
    rw [if_neg (by simp), hloop]
  exact ⟨_, hmain, by simp, rfl⟩

lemma runLoop_early_end (P : PipeParams) (hV : ValidSched P.sched)
    (hfps : P.fps ≠ 0) (hfc : 0 < P.frame_count) (hB : 0 < P.batch_size) :
    ∀ (rest : List FrameData) (s : PipeState),
      (∀ k, k < rest.length → ((s.n + k : ℕ) : ℤ) ≠ (P.frame_count : ℤ) - 1) →
      s.frame_batch.length = s.time_batch.length →
      s.frame_batch.length < P.batch_size →
      ∃ s', runLoop P rest s = .ok s' ∧
        s'.written = s.written ++
          seqReconstruct P.env
            ((s.frame_batch ++ rest).take
              (P.batch_size * ((s.frame_batch.length + rest.length) / P.batch_size)))
            ((s.time_batch ++ timestampsFrom P.fps s.n rest.length).take
              (P.batch_size * ((s.frame_batch.length + rest.length) / P.batch_size))) := by
  intro rest
  induction rest with
  | nil =>
    intro s _ _ hq
    refine ⟨s, rfl, ?_⟩
    rw [Nat.div_eq_of_lt (by simpa using hq)]
    simp [timestampsFrom, seqReconstruct]
  | cons f rest ih =>
    intro s hmeta hlen hq
    have hlen' : (s.frame_batch ++ [f]).length =
        (s.time_batch ++ [(s.n : ℚ) / P.fps]).length := by
      simp [hlen]
    have hmeta0 : ¬ ((s.n : ℤ) = (P.frame_count : ℤ) - 1) := by
      have := hmeta 0 (by simp)
      simpa using this
    by_cases hfull : P.batch_size ≤ (s.frame_batch ++ [f]).length
    · -- the appended frame fills the batch exactly: flush
      have hqB : s.frame_batch.length + 1 = P.batch_size := by
        simp at hfull
        omega
      have hstep := stepLoop_flush P s f hfps (by omega) (Or.inl hfull)
      rw [runLoop_cons_ok P f rest s _ hstep]
      obtain ⟨s', hrun, hw⟩ := ih
        { written := s.written ++ executorMapBatch P.env P.sched
            (s.frame_batch ++ [f]) (s.time_batch ++ [(s.n : ℚ) / P.fps]),
          frame_batch := [], time_batch := [],
          writes := s.writes ++
            [.setProgress ((100 * (s.n + 1)) / P.frame_count)],
          n := s.n + 1 }
        (by
          intro k hk
          have := hmeta (k + 1) (by simpa using Nat.succ_lt_succ hk)
          simp only []
          push_cast at this ⊢
          omega)
        rfl (by simpa using hB)
      simp only [List.nil_append, List.length_nil, Nat.zero_add] at hw
      refine ⟨s', hrun, ?_⟩
      rw [hw]
      rw [executorMapBatch_eq_seq P.env P.sched hV _ _ hlen']
      simp only [List.length_cons]
      rw [timestampsFrom_succ]
      have hcount : s.frame_batch.length + (rest.length + 1) =
          rest.length + P.batch_size := by omega
      rw [hcount, Nat.add_div_right _ hB, Nat.mul_succ]
      rw [show s.frame_batch ++ f :: rest = (s.frame_batch ++ [f]) ++ rest by
        simp]
      rw [show s.time_batch ++ ((s.n : ℚ) / P.fps) ::
          timestampsFrom P.fps (s.n + 1) rest.length =
          (s.time_batch ++ [(s.n : ℚ) / P.fps]) ++
            timestampsFrom P.fps (s.n + 1) rest.length by simp]
      have hc2 : P.batch_size * (rest.length / P.batch_size) + P.batch_size =
          (s.frame_batch ++ [f]).length +
            P.batch_size * (rest.length / P.batch_size) := by
        simp
        omega
      rw [hc2, List.take_append]
      have hc3 : (s.frame_batch ++ [f]).length +
          P.batch_size * (rest.length / P.batch_size) =
          (s.time_batch ++ [(s.n : ℚ) / P.fps]).length +
            P.batch_size * (rest.length / P.batch_size) := by
        rw [hlen']
      rw [hc3, List.take_append]
      rw [seqReconstruct, seqReconstruct, seqReconstruct,
        List.zipWith_append _ _ _ _ _ hlen']
      simp [List.append_assoc]
    · have hstep := stepLoop_noflush P s f hfps (by
        push_neg
        exact ⟨Nat.not_le.mp hfull, hmeta0⟩)
      rw [runLoop_cons_ok P f rest s _ hstep]
      obtain ⟨s', hrun, hw⟩ := ih
        { s with frame_batch := s.frame_batch ++ [f],
                 time_batch := s.time_batch ++ [(s.n : ℚ) / P.fps],
                 n := s.n + 1 }
        (by
          intro k hk
          have := hmeta (k + 1) (by simpa using Nat.succ_lt_succ hk)
          simp only []
          push_cast at this ⊢
          omega)
        (by simp [hlen]) (by simp at hfull ⊢; omega)
      have hcnt : s.frame_batch.length + 1 + rest.length =
          s.frame_batch.length + (rest.length + 1) := by omega
      simp only [List.length_append, List.length_singleton, hcnt,
        List.append_assoc, List.singleton_append] at hw
      refine ⟨s', hrun, ?_⟩
      rw [hw]
      simp only [List.length_cons]
      rw [timestampsFrom_succ]

/-- Claim C5 amended: when the decoder yields fewer frames than the
expected `frame_count` (the stream ends mid-read), the pipeline does not
abort and does not surface a failure: the loop simply stops, the frames
decoded after the last full 50-frame batch are discarded (never written),
the frames of previously flushed full batches remain written (a silently
truncated output), and the task finishes with the final status write
`completed` at progress 100. -/
theorem decode_shortfall_truncates (env : CvEnv)
    (sched : List FrameData → List ℚ → List ℕ) (cpu_count : ℕ)
    (frames : List FrameData) (fps : ℚ) (frame_count : ℕ) (mux : Option ℕ)
    (hV : ValidSched sched) (hfps : fps ≠ 0) (hfc : 0 < frame_count)
    (hshort : frames.length < frame_count) :
    ∃ r, process_video_with_inpainting env sched cpu_count true frames fps
        frame_count mux = .ok r ∧
      r.written = seqReconstruct env
        (frames.take (50 * (frames.length / 50)))
        ((timestampsFrom fps 0 frames.length).take
          (50 * (frames.length / 50))) ∧
      r.writes.getLast? = some (.setTask "completed" (some 100) none) := by
  obtain ⟨s', hrun, hw⟩ := runLoop_early_end
    (⟨env, sched, 50, min 8 cpu_count, fps, frame_count⟩ : PipeParams)
    hV hfps hfc (by norm_num) frames ⟨[], [], [], [], 0⟩
    (by
      intro k hk
      push_cast
      omega)
    rfl (by norm_num)
  simp only [List.nil_append, List.length_nil, Nat.zero_add] at hw
  have hmain : process_video_with_inpainting env sched cpu_count true frames
      fps frame_count mux =
      .ok { writes := [StatusWrite.setTask "processing" (some 0) none] ++
              s'.writes ++ [.setStatus "adding_audio",
              .setTask "completed" (some 100) none],
            written := s'.written,
            output := some (addAudio mux) } := by
    simp only [process_video_with_inpainting]
    rw [if_neg (by simp), hrun]
  exact ⟨_, hmain, hw, wrapper_writes_getLast s'.writes⟩

/-- Instance of `decode_shortfall_truncates`: only 2 of 4 expected frames
decode; there was no full batch, so nothing is written, yet the task
still ends with `completed` at progress 100. -/
theorem decode_shortfall_truncates_witness :
    ∃ r, process_video_with_inpainting trivCvEnv revOrder 4 true
        [constFrame 8, constFrame 9] 30 4 (some 2) = .ok r ∧
      r.written = seqReconstruct trivCvEnv
        ([constFrame 8, constFrame 9].take
          (50 * ([constFrame 8, constFrame 9].length / 50)))
        ((timestampsFrom 30 0 [constFrame 8, constFrame 9].length).take
          (50 * ([constFrame 8, constFrame 9].length / 50))) ∧
      r.writes.getLast? = some (.setTask "completed" (some 100) none) :=
  decode_shortfall_truncates trivCvEnv revOrder 4 [constFrame 8, constFrame 9]
    30 4 (some 2) (fun _ _ => List.reverse_perm _) (by norm_num) (by norm_num)
    (by norm_num)

end Watermark
